import Mathlib

/-!
Verification development for `scripts/mc_setup.py` of the `puffer_scripts`
repository: a shallow embedding in Lean 4 of the pure content of the
`MinecraftConfiguration` class (filename matching, mod diffing, update
installation, config rewriting, search rendering), together with theorems
settling the behavioural claims about it.

Python strings are modelled as Lean `String`; the Python string methods used
by the script (`str.lower`, `str.startswith`, `str.strip`) are embedded as
list-of-characters computations so that all definitions evaluate inside the
kernel.  Filesystem and network effects are modelled either as explicit
effect traces (`Effect`) or as function-valued file systems.
-/

namespace McSetup

/-- Embedding of Python `str.lower()`: lowercase every character. -/
def lowerStr (s : String) : String :=
  String.mk (s.data.map Char.toLower)

/-- Embedding of Python `str.startswith(p)`: the character list of `p` is a
prefix of the character list of `s`. -/
def strStartsWith (s p : String) : Bool :=
  p.data.isPrefixOf s.data

/-- Embedding of Python `str.strip()`: drop whitespace from both ends. -/
def trimStr (s : String) : String :=
  String.mk (((s.data.dropWhile Char.isWhitespace).reverse.dropWhile
    Char.isWhitespace).reverse)

/-- A mod entry of the `mods` list in the configuration file.  The script
reads the mandatory `slug` key and the optional `prefix` key (modelled as
`pfx`); any further keys an entry may carry are untouched by the script and
modelled opaquely as `extraFields`. -/
structure ModEntry where
  slug : String
  pfx : Option String := none
  extraFields : List (String × String) := []
deriving DecidableEq, Repr

/-- The string a filename is matched against: `mod.get("prefix", mod_slug)`,
i.e. the configured prefix when present, defaulting to the slug. -/
def matchKey (m : ModEntry) : String :=
  m.pfx.getD m.slug

/-- The per-file test of `get_current_mods` (mc_setup.py lines 111-113):
`mod_path.name.lower().startswith(prefix.lower())` -- both the filename and
the configured key are lowercased. -/
def fileMatches (m : ModEntry) (name : String) : Bool :=
  strStartsWith (lowerStr name) (lowerStr (matchKey m))

/-- Matching rule as the spec words it: the lowercased filename starts with
the lowercased prefix (default: the slug).  Spec-side definition, to be
compared with the code-side tests `fileMatches` and `listManagedTest`. -/
def specMatches (m : ModEntry) (name : String) : Bool :=
  strStartsWith (lowerStr name) (lowerStr (matchKey m))

/-- The file selected for one configured mod in `get_current_mods`: the inner
`for mod_path in current_mods: ... break` loop keeps the first file whose
name matches, i.e. `List.find?` over the enumeration order. -/
def selectFile (m : ModEntry) (files : List String) : Option String :=
  files.find? (fileMatches m)

/-- Embedding of `get_current_mods` (mc_setup.py lines 106-117): builds the map from slug
to the first matching local filename, one entry per configured mod that has a
match.  The Python dict is modelled as an association list in configuration
order. -/
def get_current_mods (mods : List ModEntry) (files : List String) :
    List (String × String) :=
  mods.filterMap (fun m => (selectFile m files).map (fun f => (m.slug, f)))

/-- The managed-test of `list` with `--exclude-managed` (mc_setup.py line 85):
`any([mod.lower().startswith(m.get("prefix", m["slug"])) for m in
self.mods.values()])`.  Note: the filename is lowercased, the configured key
is NOT. -/
def listManagedTest (mods : List ModEntry) (name : String) : Bool :=
  mods.any (fun m => strStartsWith (lowerStr name) (matchKey m))

/-- The latest remote file for a mod as returned by `get_url_for_latest_mod`:
`{"file": latest["filename"], "url": latest["url"]}`. -/
structure RemoteFile where
  file : String
  url : String
deriving DecidableEq, Repr

/-- An element of the `changes` list built by `analyse_mods`: the dicts
`{"mod": .., "action": "add"/"update", ["current": ..,] "latest": ..,
"url": ..}`. -/
structure Change where
  mod : String
  action : String
  current : Option String := none
  latest : String
  url : String
deriving DecidableEq, Repr

/-- The four outcomes of the diff step for one configured mod, read off the
four branches of the loop body of `analyse_mods` (mc_setup.py lines
180-196). -/
inductive Outcome
  | upToDate
  | updateAvailable
  | missingLocally
  | notFoundRemotely
deriving DecidableEq, Repr

/-- Branch taken by the `analyse_mods` loop body for one mod, given the
Modrinth lookup result (`latest`) and the matched local filename (`current`).
`if not latest` is `latest = none` (the dict is never empty when present);
`if not current` is Python truthiness on an optional string, hence also taken
for the empty filename. -/
def classifyMod (latest : Option RemoteFile) (current : Option String) :
    Outcome :=
  match latest with
  | none => Outcome.notFoundRemotely
  | some l =>
    match current with
    | none => Outcome.missingLocally
    | some c =>
      if c == "" then Outcome.missingLocally
      else if c == l.file then Outcome.upToDate
      else Outcome.updateAvailable

/-- The change appended (or not) by the `analyse_mods` loop body for one mod
(mc_setup.py lines 180-196), following the source branch for branch;
`if not current` is Python truthiness, hence also taken when `current` is the
empty string. -/
def analyseOne (slug : String) (latest : Option RemoteFile)
    (current : Option String) : Option Change :=
  match latest with
  | none => none
  | some l =>
    match current with
    | none =>
      some { mod := slug, action := "add", current := none,
             latest := l.file, url := l.url }
    | some c =>
      if c == "" then
        some { mod := slug, action := "add", current := none,
               latest := l.file, url := l.url }
      else if c == l.file then none
      else
        some { mod := slug, action := "update", current := some c,
               latest := l.file, url := l.url }

/-- Embedding of `analyse_mods` (mc_setup.py lines 174-199): for each configured mod, look
up the latest remote file (`latest_plugins` has one key per configured slug,
possibly with value `None`) and the matched local file (the dict built by
`get_current_mods`, consulted with `current_plugins[mod] if mod in
current_plugins else None`), and collect the resulting changes in
configuration order. -/
def analyse_mods (mods : List ModEntry) (latest : String → Option RemoteFile)
    (files : List String) : List Change :=
  mods.filterMap (fun m =>
    analyseOne m.slug (latest m.slug)
      ((get_current_mods mods files).lookup m.slug))

/-- Spec-side category: up-to-date, the matched local filename equals the
latest remote filename. -/
def spec_upToDate (latest : Option RemoteFile) (current : Option String) :
    Bool :=
  match latest, current with
  | some l, some c => c == l.file
  | _, _ => false

/-- Spec-side category: update-available, a local file matched but its name
differs from the latest remote filename. -/
def spec_updateAvailable (latest : Option RemoteFile)
    (current : Option String) : Bool :=
  match latest, current with
  | some l, some c => !(c == l.file)
  | _, _ => false

/-- Spec-side category: missing-locally, no local file matched while a latest
remote file exists. -/
def spec_missingLocally (latest : Option RemoteFile)
    (current : Option String) : Bool :=
  latest.isSome && current.isNone

/-- Spec-side category: not-found-remotely, the Modrinth lookup returned no
data. -/
def spec_notFoundRemotely (latest : Option RemoteFile)
    (_current : Option String) : Bool :=
  latest.isNone

/-- Observable effects performed by `install_updates`: the confirmation
prompt, creation of the backup folder, moving a file, downloading a URL to a
destination path. -/
inductive Effect
  | promptUpdate : Effect
  | mkdirBackup : String → Effect
  | moveFile : String → String → Effect
  | download : String → String → Effect
deriving DecidableEq, Repr

/-- Normalisation applied to the answer of the confirmation prompt:
`input(...).strip().lower()`. -/
def normalizeAnswer (s : String) : String :=
  lowerStr (trimStr s)

/-- Embedding of `install_updates` (mc_setup.py lines 151-171) as an effect trace.  The
single prompt is issued; unless the normalised answer equals `"y"` the
function returns at once.  Otherwise the update changes are processed first
(creating one timestamped backup folder, then for each update moving the
current file there and downloading the latest file), then the additions are
downloaded.  `timestamp` stands for `dt.now().strftime(..)` and paths are
joined with `"/"`. -/
def install_updates (modDir timestamp answer : String)
    (changes : List Change) : List Effect :=
  if normalizeAnswer answer ≠ "y" then [Effect.promptUpdate]
  else
    Effect.promptUpdate ::
      ((if (changes.filter (fun c => c.action == "update")).isEmpty then []
        else
          Effect.mkdirBackup (modDir ++ "/" ++ timestamp) ::
            (changes.filter (fun c => c.action == "update")).flatMap
              (fun u =>
                [Effect.moveFile (modDir ++ "/" ++ u.current.getD "")
                   (modDir ++ "/" ++ timestamp ++ "/" ++ u.current.getD ""),
                 Effect.download u.url (modDir ++ "/" ++ u.latest)])) ++
       (changes.filter (fun c => c.action == "add")).map
         (fun a => Effect.download a.url (modDir ++ "/" ++ a.latest)))

/-- The configuration file content.  The script reads `instances_dir`,
`instances`, `is_server` and `mods`; any other top-level keys are modelled
opaquely as `extraKeys`.  `instances` maps instance names to instance data,
modelled opaquely. -/
structure Config where
  instances_dir : String
  instances : List (String × String)
  is_server : Bool
  mods : List ModEntry
  extraKeys : List (String × String)
deriving DecidableEq, Repr

/-- The sort key comparison of `update_config`:
`self.config["mods"].sort(key=lambda mod: mod["slug"])`. -/
def modLe (a b : ModEntry) : Bool :=
  decide (a.slug ≤ b.slug)

/-- The in-memory part of `update_config` (mc_setup.py lines 228-230): extend
the `mods` list with the new entries and sort it by slug (Python `list.sort`
is a stable merge sort); every other key of the configuration is left
untouched. -/
def update_config (config : Config) (mods_to_add : List ModEntry) : Config :=
  { config with mods := (config.mods ++ mods_to_add).mergeSort modLe }

/-- The filesystem part of `update_config` (mc_setup.py lines 232-234): the
config file is renamed to its own path with `".bak"` appended, then the new
content is written at the original path.  The filesystem is modelled as a map
from paths to optional contents. -/
def update_config_fs (fs : String → Option String) (path newContent : String) :
    String → Option String :=
  fun p =>
    if p = path then some newContent
    else if p = path ++ ".bak" then fs path
    else fs p

/-- A search hit as used by `search` (mc_setup.py lines 68-79): the four keys
of the result dict read by the format string. -/
structure Hit where
  title : String
  project_type : String
  author : String
  slug : String
deriving DecidableEq, Repr

/-- A hit after `search` has set `hit["index"] = i + 1`. -/
structure NumberedHit where
  index : Nat
  hit : Hit
deriving DecidableEq, Repr

/-- A single-quote character, as a string. -/
def sQuote : String :=
  String.mk [Char.ofNat 39]

/-- Right-justification to width 2, as `"%2s"` does. -/
def pad2 (s : String) : String :=
  if s.length < 2 then String.mk (List.replicate (2 - s.length) (Char.ofNat 32)) ++ s
  else s

/-- The line printed for one hit:
`"%(index)2s) %(title)s [%(project_type)s]: By '%(author)s'. Slug: %(slug)s"`. -/
def renderHit (nh : NumberedHit) : String :=
  pad2 (toString nh.index) ++ ") " ++ nh.hit.title ++ " [" ++
    nh.hit.project_type ++ "]: By " ++ sQuote ++ nh.hit.author ++ sQuote ++
    ". Slug: " ++ nh.hit.slug

/-- The numbering loop of `search`: `for i, hit in enumerate(hits):
hit["index"] = i + 1`, started at `i = start`. -/
def enumHits : Nat → List Hit → List NumberedHit
  | _, [] => []
  | i, h :: rest => ⟨i + 1, h⟩ :: enumHits (i + 1) rest

/-- Embedding of `search` (mc_setup.py lines 68-79) on a fixed response: returns the
printed lines (`"No results"` when the hits list is empty, then one rendered
line per hit) and the returned hits list, each hit carrying its 1-based
index. -/
def search (hits : List Hit) : List String × List NumberedHit :=
  ((if hits.isEmpty then ["No results"] else []) ++
     (enumHits 0 hits).map renderHit,
   enumHits 0 hits)

/-- Decides whether `".jar"` occurs as a substring, i.e. whether the `.*\.jar`
tail of the filename regular expression can complete on `s`. -/
def containsJar (s : List Char) : Bool :=
  (List.range (s.length + 1)).any
    (fun i => ".jar".data.isPrefixOf (s.drop i))

/-- Decides whether `-\d+(\.\d+)+.*\.jar` matches at the start of `s` (the
mandatory tail of the filename regular expression of `find_unmanaged`,
mc_setup.py line 210).  Since digits are distinct from the characters of
`".jar"` and the dot-digit groups beyond the first can always be absorbed by
`.*`, the backtracking search of the regular expression engine succeeds
exactly when the maximal-munch reading below does: a dash, a maximal nonempty
digit run, a dot, a maximal nonempty digit run, then `".jar"` somewhere in
the remainder. -/
def coreMatch (s : List Char) : Bool :=
  match s with
  | [] => false
  | c :: s1 =>
    c == '-' &&
      (!(s1.takeWhile Char.isDigit).isEmpty &&
        (match s1.dropWhile Char.isDigit with
         | [] => false
         | d :: s3 =>
           d == '.' &&
             (!(s3.takeWhile Char.isDigit).isEmpty &&
               containsJar (s3.dropWhile Char.isDigit))))

/-- Decides whether `(?:-fabric)?-\d+(\.\d+)+.*\.jar` matches at the start of
`s`: either the optional literal `-fabric` is consumed first or not. -/
def tailMatch (s : List Char) : Bool :=
  ("-fabric".data.isPrefixOf s && coreMatch (s.drop 7)) || coreMatch s

/-- The search term `find_unmanaged` parses from a local filename
(mc_setup.py line 210): `re.match(r"(.*?)(?:-fabric)?-\d+(?:\.\d+)+.*\.jar",
mod.name)` and `m[1]`.  The non-greedy leading group makes `m[1]` the
shortest prefix whose remainder matches the tail pattern; `none` models a
failed match. -/
def parseSearchTerm (name : String) : Option String :=
  ((List.range (name.data.length + 1)).find?
      (fun i => tailMatch (name.data.drop i))).map
    (fun i => String.mk (name.data.take i))

/-- The config entry `find_unmanaged` records for a chosen search result
(mc_setup.py lines 218-222): `prefix = search_term if not search_term ==
result["slug"] else None`, the entry is `{"slug": result["slug"]}`, and the
`"prefix"` key is added under `if prefix:` -- Python truthiness, so it is
omitted both when `prefix` is `None` and when it is the empty string. -/
def recordChosen (searchTerm slug : String) : ModEntry :=
  let p : Option String := if searchTerm == slug then none else some searchTerm
  { slug := slug,
    pfx := match p with
      | some s => if s == "" then none else some s
      | none => none,
    extraFields := [] }

/-- C1: for every Modrinth lookup result and matched local filename (matched
filenames come from `glob("*.jar")` and are never empty, the hypothesis),
the diff step puts the mod in exactly one of the four spec categories, and
the branch taken by the `analyse_mods` loop body corresponds to that
category. -/
theorem c1_exclusive_classification (latest : Option RemoteFile)
    (current : Option String) (hc : current ≠ some "") :
    ((spec_upToDate latest current).toNat
      + (spec_updateAvailable latest current).toNat
      + (spec_missingLocally latest current).toNat
      + (spec_notFoundRemotely latest current).toNat = 1)
    ∧ (classifyMod latest current = Outcome.upToDate
        ↔ spec_upToDate latest current = true)
    ∧ (classifyMod latest current = Outcome.updateAvailable
        ↔ spec_updateAvailable latest current = true)
    ∧ (classifyMod latest current = Outcome.missingLocally
        ↔ spec_missingLocally latest current = true)
    ∧ (classifyMod latest current = Outcome.notFoundRemotely
        ↔ spec_notFoundRemotely latest current = true) := by
  rcases latest with _ | l
  · rcases current with _ | c <;>
      simp [spec_upToDate, spec_updateAvailable, spec_missingLocally,
        spec_notFoundRemotely, classifyMod]
  · rcases current with _ | c
    · simp [spec_upToDate, spec_updateAvailable, spec_missingLocally,
        spec_notFoundRemotely, classifyMod]
    · have hc2 : ¬(c = "") := fun h => hc (by rw [h])
      by_cases hcl : c = l.file
      · subst hcl
        simp [spec_upToDate, spec_updateAvailable, spec_missingLocally,
          spec_notFoundRemotely, classifyMod, hc2]
      · have hb : (c == l.file) = false := beq_eq_false_iff_ne.mpr hcl
        simp [spec_upToDate, spec_updateAvailable, spec_missingLocally,
          spec_notFoundRemotely, classifyMod, hcl, hc2, hb]

/-- Witness for C1 at a concrete lookup result and local filename. -/
theorem c1_exclusive_classification_witness :
    (spec_upToDate (some ⟨"sodium-2.jar", "u"⟩) (some "sodium-1.jar")).toNat
      + (spec_updateAvailable (some ⟨"sodium-2.jar", "u"⟩)
          (some "sodium-1.jar")).toNat
      + (spec_missingLocally (some ⟨"sodium-2.jar", "u"⟩)
          (some "sodium-1.jar")).toNat
      + (spec_notFoundRemotely (some ⟨"sodium-2.jar", "u"⟩)
          (some "sodium-1.jar")).toNat = 1 :=
  (c1_exclusive_classification (some ⟨"sodium-2.jar", "u"⟩)
    (some "sodium-1.jar") (by decide)).1

/-- C2 counterexample: with a configured prefix `"Sodium"` and the local file
`"Sodium-1.0.jar"`, the case-insensitive rule (and `get_current_mods`, which
implements it) matches, but the managed-test used by `list --exclude-managed`
does not, because it fails to lowercase the configured key.  So the claimed
case-insensitive matching does not hold for the `list` path. -/
theorem c2_counterexample :
    listManagedTest [{ slug := "sodium", pfx := some "Sodium" }]
        "Sodium-1.0.jar" = false
    ∧ specMatches { slug := "sodium", pfx := some "Sodium" }
        "Sodium-1.0.jar" = true
    ∧ fileMatches { slug := "sodium", pfx := some "Sodium" }
        "Sodium-1.0.jar" = true :=
  ⟨by decide, by decide, by decide⟩

/-- C2 amended: `get_current_mods` matches case-insensitively (its test
depends only on the lowercased filename and coincides with the spec rule) and
selects the first matching file in enumeration order; the managed-test of
`list --exclude-managed` lowercases only the filename, so it agrees with the
case-insensitive rule exactly when every configured key is already
lowercase. -/
theorem c2_amended_matching (mods : List ModEntry) (m : ModEntry)
    (files : List String) (n n2 : String)
    (hn : lowerStr n = lowerStr n2)
    (hlow : ∀ e ∈ mods, lowerStr (matchKey e) = matchKey e) :
    fileMatches m n = fileMatches m n2
    ∧ fileMatches m n = specMatches m n
    ∧ (∀ f, selectFile m files = some f →
        fileMatches m f = true
        ∧ ∃ l1 l2, files = l1 ++ f :: l2 ∧ ∀ g ∈ l1, fileMatches m g = false)
    ∧ listManagedTest mods n = mods.any (fun e => specMatches e n) := by
  refine ⟨?_, rfl, ?_, ?_⟩
  · unfold fileMatches
    rw [hn]
  · intro f hf
    unfold selectFile at hf
    obtain ⟨hp, as, bs, heq, hall⟩ := List.find?_eq_some.mp hf
    exact ⟨hp, as, bs, heq, fun g hg => by simpa using hall g hg⟩
  · rw [Bool.eq_iff_iff]
    simp only [listManagedTest, List.any_eq_true, specMatches]
    constructor
    · rintro ⟨e, he, hs⟩
      refine ⟨e, he, ?_⟩
      rw [hlow e he]
      exact hs
    · rintro ⟨e, he, hs⟩
      refine ⟨e, he, ?_⟩
      rw [← hlow e he]
      exact hs

/-- Witness for the amended C2 at concrete filenames differing only in
case. -/
theorem c2_amended_matching_witness :
    fileMatches { slug := "sodium" } "SODIUM-1.jar"
      = fileMatches { slug := "sodium" } "sodium-1.JAR" :=
  (c2_amended_matching [{ slug := "sodium" }] { slug := "sodium" }
    ["Sodium-1.0.jar"] "SODIUM-1.jar" "sodium-1.JAR" (by decide)
    (by decide)).1

/-- C3: `install_updates` is guarded by its single confirmation prompt: when
the stripped, lowercased answer is not `"y"` the trace is just the prompt (no
move, no backup folder, no download), and for every answer the trace contains
exactly one prompt. -/
theorem c3_single_prompt_guard (modDir ts answer : String)
    (changes : List Change) (h : normalizeAnswer answer ≠ "y") :
    install_updates modDir ts answer changes = [Effect.promptUpdate]
    ∧ ∀ ans2 : String,
        List.count Effect.promptUpdate
          (install_updates modDir ts ans2 changes) = 1 := by
  constructor
  · unfold install_updates
    rw [if_pos h]
  · intro ans2
    unfold install_updates
    by_cases h2 : normalizeAnswer ans2 ≠ "y"
    · rw [if_pos h2]
      rfl
    · rw [if_neg h2, List.count_cons_self]
      have hz : Effect.promptUpdate ∉
          ((if (changes.filter (fun c => c.action == "update")).isEmpty
            then ([] : List Effect)
            else
              Effect.mkdirBackup (modDir ++ "/" ++ ts) ::
                (changes.filter (fun c => c.action == "update")).flatMap
                  (fun u =>
                    [Effect.moveFile (modDir ++ "/" ++ u.current.getD "")
                       (modDir ++ "/" ++ ts ++ "/" ++ u.current.getD ""),
                     Effect.download u.url (modDir ++ "/" ++ u.latest)])) ++
           (changes.filter (fun c => c.action == "add")).map
             (fun a => Effect.download a.url (modDir ++ "/" ++ a.latest))) := by
        intro hmem
        rcases List.mem_append.mp hmem with hm | hm
        · by_cases he : (changes.filter (fun c => c.action == "update")).isEmpty
          · rw [if_pos he] at hm
            cases hm
          · rw [if_neg he] at hm
            rcases List.mem_cons.mp hm with hk | hk
            · cases hk
            · obtain ⟨u, hu, hx⟩ := List.mem_flatMap.mp hk
              simp at hx
        · obtain ⟨a, ha, hx⟩ := List.mem_map.mp hm
          cases hx
      rw [List.count_eq_zero.mpr hz]

/-- Witness for C3: a refused confirmation at a concrete answer leaves only
the prompt in the trace. -/
theorem c3_single_prompt_guard_witness :
    install_updates "mods" "25-01-25_10-00-00" " N " [] =
      [Effect.promptUpdate] :=
  (c3_single_prompt_guard "mods" "25-01-25_10-00-00" " N " [] (by decide)).1

/-- C4: on a confirmed run, every change with action `"update"` has its
current file moved into the timestamped backup folder strictly before its new
version is downloaded, with the backup folder created before the move; every
change with action `"add"` is downloaded; and every move in the trace stems
from an `"update"` change, so additions are never backed up. -/
theorem c4_update_backup_order (modDir ts answer : String)
    (changes : List Change) (h : normalizeAnswer answer = "y") :
    (∀ c ∈ changes, c.action = "update" →
      ∃ l1 l2 l3,
        install_updates modDir ts answer changes =
          l1 ++ Effect.moveFile (modDir ++ "/" ++ c.current.getD "")
              (modDir ++ "/" ++ ts ++ "/" ++ c.current.getD "") ::
            (l2 ++ Effect.download c.url (modDir ++ "/" ++ c.latest) :: l3)
        ∧ Effect.mkdirBackup (modDir ++ "/" ++ ts) ∈ l1)
    ∧ (∀ c ∈ changes, c.action = "add" →
        Effect.download c.url (modDir ++ "/" ++ c.latest)
          ∈ install_updates modDir ts answer changes)
    ∧ (∀ src dst,
        Effect.moveFile src dst ∈ install_updates modDir ts answer changes →
        ∃ u, u ∈ changes ∧ u.action = "update"
          ∧ src = modDir ++ "/" ++ u.current.getD "") := by
  have hng : ¬(normalizeAnswer answer ≠ "y") := fun hx => hx h
  refine ⟨?_, ?_, ?_⟩
  · intro c hc hact
    have hcu : c ∈ changes.filter (fun x => x.action == "update") :=
      List.mem_filter.mpr ⟨hc, by simp [hact]⟩
    obtain ⟨as, bs, hab⟩ := List.append_of_mem hcu
    refine ⟨Effect.promptUpdate :: Effect.mkdirBackup (modDir ++ "/" ++ ts) ::
        as.flatMap (fun u =>
          [Effect.moveFile (modDir ++ "/" ++ u.current.getD "")
             (modDir ++ "/" ++ ts ++ "/" ++ u.current.getD ""),
           Effect.download u.url (modDir ++ "/" ++ u.latest)]),
      [],
      bs.flatMap (fun u =>
          [Effect.moveFile (modDir ++ "/" ++ u.current.getD "")
             (modDir ++ "/" ++ ts ++ "/" ++ u.current.getD ""),
           Effect.download u.url (modDir ++ "/" ++ u.latest)]) ++
        (changes.filter (fun x => x.action == "add")).map
          (fun a => Effect.download a.url (modDir ++ "/" ++ a.latest)),
      ?_, by simp⟩
    unfold install_updates
    rw [if_neg hng, hab]
    have hne : ¬((as ++ c :: bs).isEmpty = true) := by
      simp [List.isEmpty_iff]
    rw [if_neg hne, List.flatMap_append, List.flatMap_cons]
    simp [List.append_assoc]
  · intro c hc hact
    unfold install_updates
    rw [if_neg hng]
    refine List.mem_cons_of_mem _ (List.mem_append_right _ ?_)
    exact List.mem_map.mpr ⟨c, List.mem_filter.mpr ⟨hc, by simp [hact]⟩, rfl⟩
  · intro src dst hmem
    unfold install_updates at hmem
    rw [if_neg hng] at hmem
    rcases List.mem_cons.mp hmem with hk | hk
    · cases hk
    rcases List.mem_append.mp hk with hm | hm
    · by_cases he : (changes.filter (fun c => c.action == "update")).isEmpty
      · rw [if_pos he] at hm
        cases hm
      · rw [if_neg he] at hm
        rcases List.mem_cons.mp hm with hk2 | hk2
        · cases hk2
        obtain ⟨u, hu, hx⟩ := List.mem_flatMap.mp hk2
        have hu2 := List.mem_filter.mp hu
        rcases List.mem_cons.mp hx with he2 | he2
        · refine ⟨u, hu2.1, by simpa using hu2.2, ?_⟩
          injection he2 with h1 h2
        · simp at he2
    · obtain ⟨a, ha, hx⟩ := List.mem_map.mp hm
      cases hx

/-- Witness for C4: a confirmed run with one addition downloads it. -/
theorem c4_update_backup_order_witness :
    Effect.download "http-u" ("mods" ++ "/" ++ "sodium-2.jar")
      ∈ install_updates "mods" "ts" "y"
          [{ mod := "sodium", action := "add", current := none,
             latest := "sodium-2.jar", url := "http-u" }] :=
  (c4_update_backup_order "mods" "ts" "y"
      [{ mod := "sodium", action := "add", current := none,
         latest := "sodium-2.jar", url := "http-u" }] (by decide)).2.1
    { mod := "sodium", action := "add", current := none,
      latest := "sodium-2.jar", url := "http-u" }
    (List.mem_cons_self _ _) rfl

/-- C5: the config rewrite changes only the `mods` key: `instances_dir`,
`instances`, `is_server` and all other keys are preserved, and every
pre-existing mod entry is still present with all its fields unchanged. -/
theorem c5_config_frame (config : Config) (newMods : List ModEntry) :
    (update_config config newMods).instances_dir = config.instances_dir
    ∧ (update_config config newMods).instances = config.instances
    ∧ (update_config config newMods).is_server = config.is_server
    ∧ (update_config config newMods).extraKeys = config.extraKeys
    ∧ ∀ e ∈ config.mods, e ∈ (update_config config newMods).mods := by
  refine ⟨rfl, rfl, rfl, rfl, ?_⟩
  intro e he
  exact (List.mergeSort_perm (config.mods ++ newMods) modLe).mem_iff.mpr
    (List.mem_append_left _ he)

/-- C6: after the rewrite, the `mods` list is a permutation of the old
entries followed by the new ones (exactly their multiset union) and is sorted
in ascending order of the `slug` key. -/
theorem c6_mods_sorted_union (config : Config) (newMods : List ModEntry) :
    (update_config config newMods).mods.Perm (config.mods ++ newMods)
    ∧ List.Pairwise (fun a b => a.slug ≤ b.slug)
        (update_config config newMods).mods := by
  constructor
  · exact List.mergeSort_perm _ _
  · have htrans : ∀ a b c : ModEntry,
        modLe a b = true → modLe b c = true → modLe a c = true := by
      intro a b c hab hbc
      simp only [modLe, decide_eq_true_eq] at *
      exact le_trans hab hbc
    have htotal : ∀ a b : ModEntry, (modLe a b || modLe b a) = true := by
      intro a b
      simp only [modLe, Bool.or_eq_true, decide_eq_true_eq]
      exact le_total a.slug b.slug
    have hp := List.sorted_mergeSort htrans htotal (config.mods ++ newMods)
    exact hp.imp (fun hab => by simpa [modLe] using hab)

/-- Auxiliary for C7: the map of the numbering loop assigns `start + k + 1`
to the hit at offset `k`, i.e. the indices are consecutive from
`start + 1`. -/
theorem enumHits_map_index (start : Nat) (hits : List Hit) :
    (enumHits start hits).map NumberedHit.index
      = List.range' (start + 1) hits.length := by
  induction hits generalizing start with
  | nil => rfl
  | cons h t ih =>
    simp [enumHits, List.range', ih]

/-- C7: `search` is a pure function of the hits list, so two runs on the same
fixture produce the same printed lines and the same returned hits, and the
returned hits are numbered 1, 2, ... in order of their position. -/
theorem c7_search_deterministic (hits : List Hit) :
    search hits = search hits
    ∧ (search hits).2.map NumberedHit.index = List.range' 1 hits.length :=
  ⟨rfl, enumHits_map_index 0 hits⟩

/-- C8: the config rewrite first renames the config file to its path with
`".bak"` appended, then writes the new content at the original path, so after
the rewrite the prior content is found under the `.bak` path and the new
content under the config path. -/
theorem c8_rewrite_preserves_old_config (fs : String → Option String)
    (path newContent : String) :
    update_config_fs fs path newContent (path ++ ".bak") = fs path
    ∧ update_config_fs fs path newContent path = some newContent := by
  have hne : path ++ ".bak" ≠ path := by
    intro hx
    have h2 := congrArg String.length hx
    rw [String.length_append] at h2
    have h4 : (".bak" : String).length = 4 := by decide
    omega
  constructor
  · unfold update_config_fs
    rw [if_neg hne, if_pos rfl]
  · unfold update_config_fs
    rw [if_pos rfl]

/-- Every change produced by the `analyse_mods` loop body carries the slug of
its mod and an action that is `"update"` or `"add"`. -/
theorem analyseOne_some_cases (slug : String) (latest : Option RemoteFile)
    (current : Option String) (ch : Change)
    (h : analyseOne slug latest current = some ch) :
    ch.mod = slug ∧ (ch.action = "update" ∨ ch.action = "add") := by
  rcases latest with _ | l
  · exact Option.noConfusion h
  rcases current with _ | c
  · simp only [analyseOne] at h
    cases h
    exact ⟨rfl, Or.inr rfl⟩
  · simp only [analyseOne] at h
    by_cases h0 : (c == "") = true
    · rw [if_pos h0] at h
      cases h
      exact ⟨rfl, Or.inr rfl⟩
    · rw [if_neg h0] at h
      by_cases h1 : (c == l.file) = true
      · rw [if_pos h1] at h
        exact Option.noConfusion h
      · rw [if_neg h1] at h
        cases h
        exact ⟨rfl, Or.inl rfl⟩

/-- When the loop body classifies a mod as up-to-date or not-found-remotely,
it appends no change. -/
theorem analyseOne_none_of_classify (slug : String)
    (latest : Option RemoteFile) (current : Option String)
    (h : classifyMod latest current = Outcome.upToDate
      ∨ classifyMod latest current = Outcome.notFoundRemotely) :
    analyseOne slug latest current = none := by
  rcases latest with _ | l
  · rfl
  rcases current with _ | c
  · simp [classifyMod] at h
  · by_cases h0 : (c == "") = true
    · simp [classifyMod, h0] at h
    · by_cases h1 : (c == l.file) = true
      · simp [analyseOne, h0, h1]
      · simp [classifyMod, h0, h1] at h

/-- Unfolding `get_current_mods` at a mod with no matching file. -/
theorem gcm_cons_none (a : ModEntry) (t : List ModEntry)
    (files : List String) (h : selectFile a files = none) :
    get_current_mods (a :: t) files = get_current_mods t files := by
  unfold get_current_mods
  exact List.filterMap_cons_none (by rw [h]; rfl)

/-- Unfolding `get_current_mods` at a mod whose first matching file is
`f`. -/
theorem gcm_cons_some (a : ModEntry) (t : List ModEntry)
    (files : List String) (f : String) (h : selectFile a files = some f) :
    get_current_mods (a :: t) files
      = (a.slug, f) :: get_current_mods t files := by
  unfold get_current_mods
  exact List.filterMap_cons_some (by rw [h]; rfl)

/-- Keys of the map built by `get_current_mods` are configured slugs. -/
theorem gcm_keys (mods : List ModEntry) (files : List String)
    (p : String × String) (hp : p ∈ get_current_mods mods files) :
    p.1 ∈ mods.map ModEntry.slug := by
  obtain ⟨m, hm, hfm⟩ := List.mem_filterMap.mp hp
  rcases hsel : selectFile m files with _ | f
  · rw [hsel] at hfm
    cases hfm
  · rw [hsel, Option.map_some'] at hfm
    cases hfm
    exact List.mem_map_of_mem _ hm

/-- A slug that is not configured is absent from the map built by
`get_current_mods`. -/
theorem lookup_gcm_of_not_mem (mods : List ModEntry) (files : List String)
    (s : String) (hs : s ∉ mods.map ModEntry.slug) :
    (get_current_mods mods files).lookup s = none := by
  rw [List.lookup_eq_none_iff]
  intro p hp
  have hk := gcm_keys mods files p hp
  have hne : s ≠ p.1 := fun hx => hs (hx ▸ hk)
  simpa using hne

/-- Under distinct configured slugs, consulting the map built by
`get_current_mods` for a configured mod yields exactly the first matching
file of that mod. -/
theorem lookup_gcm_of_mem (mods : List ModEntry) (files : List String)
    (h : (mods.map ModEntry.slug).Nodup) (m : ModEntry) (hm : m ∈ mods) :
    (get_current_mods mods files).lookup m.slug = selectFile m files := by
  induction mods with
  | nil => cases hm
  | cons a t ih =>
    rw [List.map_cons, List.nodup_cons] at h
    rcases List.mem_cons.mp hm with he | ht
    · subst he
      rcases hsel : selectFile m files with _ | f
      · rw [gcm_cons_none m t files hsel]
        exact lookup_gcm_of_not_mem t files m.slug h.1
      · rw [gcm_cons_some m t files f hsel, List.lookup_cons]
        simp
    · have hne : m.slug ≠ a.slug := fun he2 =>
        h.1 (he2 ▸ List.mem_map_of_mem _ ht)
      have hb : (m.slug == a.slug) = false := beq_eq_false_iff_ne.mpr hne
      rcases hsel : selectFile a files with _ | f
      · rw [gcm_cons_none a t files hsel]
        exact ih h.2 ht
      · rw [gcm_cons_some a t files f hsel, List.lookup_cons, hb]
        exact ih h.2 ht

/-- Under distinct configured slugs, `analyse_mods` processes each mod
against its own first matching file. -/
theorem analyse_mods_eq_simple (mods : List ModEntry)
    (latest : String → Option RemoteFile) (files : List String)
    (h : (mods.map ModEntry.slug).Nodup) :
    analyse_mods mods latest files
      = mods.filterMap (fun m =>
          analyseOne m.slug (latest m.slug) (selectFile m files)) := by
  unfold analyse_mods
  exact List.filterMap_congr (fun m hm => by
    rw [lookup_gcm_of_mem mods files h m hm])

/-- Changes for a slug outside the configured list do not occur. -/
theorem simple_changes_filter_nil (mods : List ModEntry)
    (latest : String → Option RemoteFile) (files : List String) (s : String)
    (hs : s ∉ mods.map ModEntry.slug) :
    ((mods.filterMap (fun m =>
        analyseOne m.slug (latest m.slug) (selectFile m files))).filter
      (fun ch => ch.mod == s)) = [] := by
  rw [List.filter_eq_nil_iff]
  intro ch hch
  obtain ⟨m, hm, hone⟩ := List.mem_filterMap.mp hch
  have h1 := (analyseOne_some_cases _ _ _ _ hone).1
  intro hb
  exact hs (beq_iff_eq.mp hb ▸ h1 ▸ List.mem_map_of_mem _ hm)

/-- Under distinct configured slugs, at most one change mentions any given
slug. -/
theorem simple_changes_count (mods : List ModEntry)
    (latest : String → Option RemoteFile) (files : List String)
    (h : (mods.map ModEntry.slug).Nodup) (s : String) :
    ((mods.filterMap (fun m =>
        analyseOne m.slug (latest m.slug) (selectFile m files))).filter
      (fun ch => ch.mod == s)).length ≤ 1 := by
  induction mods with
  | nil => simp
  | cons a t ih =>
    rw [List.map_cons, List.nodup_cons] at h
    rcases hone : analyseOne a.slug (latest a.slug) (selectFile a files)
      with _ | ch
    · rw [@List.filterMap_cons_none _ _
        (fun m => analyseOne m.slug (latest m.slug) (selectFile m files))
        a t hone]
      exact ih h.2
    · rw [@List.filterMap_cons_some _ _
        (fun m => analyseOne m.slug (latest m.slug) (selectFile m files))
        a t ch hone]
      by_cases hcs : (ch.mod == s) = true
      · rw [@List.filter_cons_of_pos _ (fun x => x.mod == s) ch _ hcs]
        have hchm := (analyseOne_some_cases _ _ _ _ hone).1
        have hs2 : s ∉ t.map ModEntry.slug := by
          rw [← beq_iff_eq.mp hcs, hchm]
          exact h.1
        rw [simple_changes_filter_nil t latest files s hs2]
        simp
      · rw [@List.filter_cons_of_neg _ (fun x => x.mod == s) ch _ hcs]
        exact ih h.2

/-- C9: under the configured slugs being distinct (they are keys of a Python
dict), the changes list of `analyse_mods` has every action equal to
`"update"` or `"add"`, contains at most one entry per slug, and has no entry
at all for a mod classified up-to-date or not-found-remotely. -/
theorem c9_changes_shape (mods : List ModEntry)
    (latest : String → Option RemoteFile) (files : List String)
    (h : (mods.map ModEntry.slug).Nodup) :
    (∀ ch ∈ analyse_mods mods latest files,
        ch.action = "update" ∨ ch.action = "add")
    ∧ (∀ s : String,
        ((analyse_mods mods latest files).filter
          (fun ch => ch.mod == s)).length ≤ 1)
    ∧ (∀ m ∈ mods,
        (classifyMod (latest m.slug) (selectFile m files) = Outcome.upToDate
          ∨ classifyMod (latest m.slug) (selectFile m files)
              = Outcome.notFoundRemotely) →
        ∀ ch ∈ analyse_mods mods latest files, ch.mod ≠ m.slug) := by
  rw [analyse_mods_eq_simple mods latest files h]
  refine ⟨?_, ?_, ?_⟩
  · intro ch hch
    obtain ⟨m, hm, hone⟩ := List.mem_filterMap.mp hch
    exact (analyseOne_some_cases _ _ _ _ hone).2
  · intro s
    exact simple_changes_count mods latest files h s
  · intro m hm hcls ch hch he
    obtain ⟨m2, hm2, hone⟩ := List.mem_filterMap.mp hch
    have h1 := (analyseOne_some_cases _ _ _ _ hone).1
    have heq : m2 = m :=
      List.inj_on_of_nodup_map h hm2 hm (by rw [← h1, he])
    subst heq
    rw [analyseOne_none_of_classify m2.slug _ _ hcls] at hone
    cases hone

/-- Witness for C9 with one configured mod and no remote data. -/
theorem c9_changes_shape_witness :
    ((analyse_mods [{ slug := "sodium" }] (fun _ => none) []).filter
      (fun ch => ch.mod == "sodium")).length ≤ 1 :=
  (c9_changes_shape [{ slug := "sodium" }] (fun _ => none) []
    (by decide)).2.1 "sodium"

/-- C10 counterexample: the filename `"-1.0.jar"` parses (per the regular
expression of `find_unmanaged`) to the empty search term; the empty term
differs from the chosen slug `"sodium"`, yet the recorded entry carries no
prefix key, because `if prefix:` is false for the empty string. -/
theorem c10_counterexample :
    parseSearchTerm "-1.0.jar" = some ""
    ∧ ("" : String) ≠ "sodium"
    ∧ (recordChosen "" "sodium").pfx = none :=
  ⟨by decide, by decide, by decide⟩

/-- C10 amended: the recorded entry carries the slug, and carries a prefix
key exactly when the parsed search term both differs from the chosen slug and
is non-empty, in which case the prefix is that search term. -/
theorem c10_amended_record (searchTerm slug : String) :
    (recordChosen searchTerm slug).slug = slug
    ∧ (recordChosen searchTerm slug).pfx
        = (if searchTerm ≠ slug ∧ searchTerm ≠ "" then some searchTerm
           else none) := by
  constructor
  · rfl
  · by_cases h1 : searchTerm = slug
    · simp [recordChosen, h1]
    · by_cases h0 : searchTerm = ""
      · subst h0
        simp [recordChosen, h1]
      · simp [recordChosen, h1, h0]

end McSetup
